import Mathlib

/-!
Verification of the sharpctl frame-analysis core (VideoAnalyzer) and the
selection persistence of the GUI layer, against a shallow embedding in exact
rational arithmetic. Times and sharpness scores (C++ doubles) are modelled as
`ℚ`; seek-and-read composed with `calculateSharpness` is abstracted as an
oracle `read : ℚ → Option ℚ` (`some v` = the frame at that position was read
and scored `v`, `none` = the read failed), which is deterministic for a fixed
video file. The cooperative cancellation flag, polled by the parallel loops,
is modelled by observation schedules: a unit either observes the flag set at
a poll point or it does not, and the per-slot result buffers make the final
collection independent of completion order, so these schedules capture every
parallel interleaving.
-/

namespace Sharpctl

/-- FrameData (src/src/core/frame_data.hpp): per-sample record. The thumbnail
raster is not carried by the model; its presence is tracked where it matters
(`targetResultOn` returns `some` exactly when the source's `bestFrame` is
non-empty, i.e. a thumbnail was created for the slot). -/
structure FrameData where
  time : ℚ
  sharpness : ℚ
  selected : Bool
deriving DecidableEq

/-- A default-constructed FrameData (the member initializers of
frame_data.hpp): time 0, sharpness 0, selected false. This is the content of
an untouched slot of a pre-sized result buffer. -/
def defaultFrameData : FrameData := ⟨0, 0, false⟩

/-- VideoInfo (src/src/core/frame_data.hpp). -/
structure VideoInfo where
  duration : ℚ
  fps : ℚ
  frameCount : ℤ
  width : ℤ
  height : ℤ
deriving DecidableEq

/-- The metadata computation of VideoAnalyzer::openVideo (part_000 lines
28-38): duration is frameCount / fps when both are positive, else 0. -/
def openVideoInfo (fps : ℚ) (frameCount width height : ℤ) : VideoInfo :=
  { duration := if 0 < fps ∧ 0 < frameCount then (frameCount : ℚ) / fps else 0
    fps := fps
    frameCount := frameCount
    width := width
    height := height }

/-- A C-style accumulation loop `for (t = t0; t <= stop; t += step)`
collecting the visited times. `fuel` bounds the number of iterations; the
source loops terminate exactly when step > 0, which every claim assumes, and
`gridFuel` below provably suffices then. -/
def timeLoop (stop step : ℚ) : ℕ → ℚ → List ℚ
  | 0, _ => []
  | fuel + 1, t => if t ≤ stop then t :: timeLoop stop step fuel (t + step) else []

/-- Fuel that suffices for `timeLoop` started at `start` when step > 0: one
more than the exact iteration count. -/
def gridFuel (start stop step : ℚ) : ℕ := (⌊(stop - start) / step⌋ + 1).toNat + 1

/-- The times visited by `for (t = start; t <= stop; t += step)`. -/
def gridTimes (start stop step : ℚ) : List ℚ :=
  timeLoop stop step (gridFuel start stop step) start

/-- The sample grid of analyzeFullVideo (part_000 lines 150-153):
t = 0, step, 2*step, ... while t <= duration. -/
def sampleTimes (duration step : ℚ) : List ℚ := gridTimes 0 duration step

/-- The target grid of findOptimalFrames (part_000 lines 224-227):
t = 0, interval, 2*interval, ... while t <= duration. -/
def targetTimes (duration interval : ℚ) : List ℚ := gridTimes 0 duration interval

/-- The 1e-9 slack added to the inner-scan bound (part_000 line 250). -/
def searchEps : ℚ := 1 / 1000000000

/-- The scan positions of one target's window (part_000 lines 247-250):
ts from max(0, t-window) while ts <= min(duration, t+window) + 1e-9. -/
def scanTimes (duration window step t : ℚ) : List ℚ :=
  gridTimes (max 0 (t - window)) (min duration (t + window) + searchEps) step

variable {α β : Type*}

/-- Indexed map starting from index `s`: the per-slot writes of the
data-parallel loops, which address a pre-sized buffer by grid position. -/
def mapWithIdxFrom (f : ℕ → α → β) : ℕ → List α → List β
  | _, [] => []
  | i, x :: xs => f i x :: mapWithIdxFrom f (i + 1) xs

/-- Indexed map from 0. -/
def mapWithIdx (f : ℕ → α → β) (l : List α) : List β := mapWithIdxFrom f 0 l

/-- One sampling slot of analyzeFullVideo (part_000 lines 164-186) for grid
index i and time t. `skip i` = unit i observed the cancel flag at its start
(line 166) and left its slot default-constructed; a failed read marks the
slot's sharpness -1 (line 176) and touches nothing else. -/
def sampleSlot (read : ℚ → Option ℚ) (skip : ℕ → Bool) (i : ℕ) (t : ℚ) : FrameData :=
  if skip i then defaultFrameData
  else
    match read t with
    | some v => ⟨t, v, false⟩
    | none => { defaultFrameData with sharpness := -1 }

/-- VideoAnalyzer::analyzeFullVideo (part_000 lines 135-204), as the pair
(outSamples, returned bool). `capOpen` = cap_.isOpened(); `finalCancelled` =
the cancel flag when the run returns (line 203 returns !isCancelled()). The
collection pass keeps every slot with sharpness >= 0 (lines 190-197). -/
def analyzeFullVideo (read : ℚ → Option ℚ) (skip : ℕ → Bool)
    (finalCancelled capOpen : Bool) (duration step : ℚ) : List FrameData × Bool :=
  if !capOpen then ([], false)
  else if duration ≤ 0 then ([], false)
  else
    ((mapWithIdx (sampleSlot read skip) (sampleTimes duration step)).filter
        (fun r => 0 ≤ r.sharpness),
      !finalCancelled)

/-- One iteration body of the inner window scan (part_000 lines 251-260) on
the state (bestVar, bestTime, bestFrame-nonempty): a successful read whose
score strictly exceeds bestVar becomes the new best. -/
def scanStep (read : ℚ → Option ℚ) (st : ℚ × ℚ × Bool) (ts : ℚ) : ℚ × ℚ × Bool :=
  match read ts with
  | none => st
  | some v => if st.1 < v then (v, ts, true) else st

/-- The inner window scan over a list of positions when the cancel flag is
never observed set. -/
def windowScan (read : ℚ → Option ℚ) (st : ℚ × ℚ × Bool) (l : List ℚ) : ℚ × ℚ × Bool :=
  l.foldl (scanStep read) st

/-- The inner window scan as written (part_000 line 250): the loop condition
also polls the cancel flag before every iteration; `cancel i` = the flag was
observed set at iteration i, which ends the loop there. -/
def scanWithCancel (read : ℚ → Option ℚ) (cancel : ℕ → Bool) :
    List ℚ → ℕ → ℚ × ℚ × Bool → ℚ × ℚ × Bool
  | [], _, st => st
  | ts :: rest, i, st =>
    if cancel i then st
    else scanWithCancel read cancel rest (i + 1) (scanStep read st ts)

/-- One target's result over an explicit list of scan positions (part_000
lines 242-272): the state starts as (bestVar -1, bestTime targetT, empty
bestFrame), and the slot is filled (time := bestTime, sharpness := bestVar,
selected := true, thumbnail created) iff bestFrame is non-empty at the end. -/
def targetResultOn (read : ℚ → Option ℚ) (cancel : ℕ → Bool) (l : List ℚ) (t : ℚ) :
    Option FrameData :=
  if (scanWithCancel read cancel l 0 (-1, t, false)).2.2 then
    some ⟨(scanWithCancel read cancel l 0 (-1, t, false)).2.1,
      (scanWithCancel read cancel l 0 (-1, t, false)).1, true⟩
  else none

/-- One target's result in findOptimalFrames: the scan positions are the
clamped window of `t` walked at `step` resolution up to the 1e-9 slack. -/
def targetResult (read : ℚ → Option ℚ) (cancel : ℕ → Bool)
    (duration window step t : ℚ) : Option FrameData :=
  targetResultOn read cancel (scanTimes duration window step t) t

/-- One slot of findOptimalFrames' pre-sized result buffer, for target index
i at target time t: `skip i` = target i observed the cancel flag before
starting (line 240) and left its slot untouched (empty thumbnail). -/
def targetSlot (read : ℚ → Option ℚ) (skip : ℕ → Bool) (innerCancel : ℕ → ℕ → Bool)
    (duration window step : ℚ) (i : ℕ) (t : ℚ) : Option FrameData :=
  if skip i then none else targetResult read (innerCancel i) duration window step t

/-- VideoAnalyzer::findOptimalFrames (part_000 lines 206-301), as the pair
(outSelected, returned bool). The collection pass keeps the slots whose
thumbnail is non-empty (lines 285-289), in target-grid order. -/
def findOptimalFrames (read : ℚ → Option ℚ) (skip : ℕ → Bool)
    (innerCancel : ℕ → ℕ → Bool) (finalCancelled capOpen : Bool)
    (duration interval window step : ℚ) : List FrameData × Bool :=
  if !capOpen then ([], false)
  else if duration ≤ 0 then ([], false)
  else
    ((mapWithIdx (targetSlot read skip innerCancel duration window step)
        (targetTimes duration interval)).filterMap id,
      !finalCancelled)

/-- The indexed list of frames to export (part_000 lines 311-317): the
entries with selected == true, each paired with the size of the list at the
moment it is appended. -/
def toExport (frames : List FrameData) : List (ℕ × FrameData) :=
  frames.foldl (fun acc f => if f.selected then acc ++ [(acc.length, f)] else acc) []

/-- The data snprintf embeds in an export filename,
frame_%04zu_t%.3f_var%.2f.jpg (part_000 lines 338-343). -/
structure ExportedFile where
  index : ℕ
  time : ℚ
  sharpness : ℚ
deriving DecidableEq

/-- One export unit's outcome (file written, failure flag raised) for loop
position i and indexed entry u (part_000 lines 329-347). `skip i` = unit i
observed cancellation or an already-raised failure flag at its start (line
330); `writeOk i` = whether unit i's imwrite succeeds. A failed read is
silent (no write, no flag); a failed write raises the shared failure flag
(lines 344-346). -/
def exportUnit (read : ℚ → Option ℚ) (writeOk skip : ℕ → Bool) (i : ℕ)
    (u : ℕ × FrameData) : Option ExportedFile × Bool :=
  if skip i then (none, false)
  else
    match read u.2.time with
    | none => (none, false)
    | some _ =>
      if writeOk i then (some ⟨u.1, u.2.time, u.2.sharpness⟩, false)
      else (none, true)

/-- The per-unit outcomes of the export loop (part_000 lines 328-357). -/
def exportOutcomes (read : ℚ → Option ℚ) (writeOk skip : ℕ → Bool)
    (frames : List FrameData) : List (Option ExportedFile × Bool) :=
  mapWithIdx (exportUnit read writeOk skip) (toExport frames)

/-- VideoAnalyzer::exportFrames (part_000 lines 303-368), as the pair
(files written, returned bool): returns false when any processed unit's write
failed (lines 359-361), else !isCancelled(). -/
def exportFrames (read : ℚ → Option ℚ) (writeOk skip : ℕ → Bool)
    (finalCancelled capOpen : Bool) (frames : List FrameData) :
    List ExportedFile × Bool :=
  if !capOpen then ([], false)
  else
    (((exportOutcomes read writeOk skip frames).map Prod.fst).filterMap id,
      if (exportOutcomes read writeOk skip frames).any Prod.snd then false
      else !finalCancelled)

/-- The selected_frames list App::saveConfig writes (app.cpp lines 578-584):
only the entries with selected == true, each as its (time, sharpness) pair. -/
def savedSelectedFrames (frames : List FrameData) : List (ℚ × ℚ) :=
  (frames.filter (fun f => f.selected)).map (fun f => (f.time, f.sharpness))

/-- The selectedFrames_ list App::loadConfig rebuilds from a selected_frames
node (app.cpp lines 643-659): each persisted (time, sharpness) pair becomes an
entry with selected := true (the thumbnail is re-derived from the video, not
from the persisted data, and is not part of this model). -/
def loadSelectedFrames (entries : List (ℚ × ℚ)) : List FrameData :=
  entries.map (fun e => ⟨e.1, e.2, true⟩)

/-- Consecutive numbering from 0, in order, of the selected entries: the
property claimed of the export filename ordinals. -/
def consecutiveIndexed (frames : List FrameData) : List (ℕ × FrameData) :=
  mapWithIdx (fun i f => (i, f)) (frames.filter (fun f => f.selected))

/-- The read oracle of the spec's windowed-search example: the window
[1.5, 2.5] has readable frames scored 12.0 at 1.6, 12.0 at 2.0 and 9.0 at
2.4, and reads fail everywhere else. -/
def exampleRead : ℚ → Option ℚ := fun u =>
  if u = 8 / 5 then some 12
  else if u = 2 then some 12
  else if u = 12 / 5 then some 9
  else none

/-- A search half-width lying 5e-10 below one scan step of 0.01: the scan
bound endT + 1e-9 then admits one position beyond the window. -/
def cexWindow : ℚ := 1 / 100 - 1 / 2000000000

/-- A read oracle whose best frame sits at 0.01, just past `cexWindow`. -/
def cexRead : ℚ → Option ℚ := fun u =>
  if u = 0 then some 1 else if u = 1 / 100 then some 2 else none

/-- A read oracle for the mid-window cancellation example: score 5 at the
window start 1.5 and score 10 at 2.0. -/
def readC3 : ℚ → Option ℚ := fun u =>
  if u = 3 / 2 then some 5 else if u = 2 then some 10 else none

attribute [local semireducible] Rat.add Rat.sub Rat.mul Rat.inv

theorem timeLoop_mem_bounds (stop step : ℚ) (hs : 0 ≤ step) :
    ∀ (fuel : ℕ) (t x : ℚ), x ∈ timeLoop stop step fuel t → t ≤ x ∧ x ≤ stop := by
  intro fuel
  induction fuel with
  | zero => intro t x hx; simp [timeLoop] at hx
  | succ n ih =>
    intro t x hx
    rw [timeLoop] at hx
    by_cases ht : t ≤ stop
    · rw [if_pos ht] at hx
      rcases List.mem_cons.mp hx with h | h
      · exact ⟨le_of_eq h.symm, h ▸ ht⟩
      · have := ih (t + step) x h
        exact ⟨le_trans (le_add_of_nonneg_right hs) this.1, this.2⟩
    · rw [if_neg ht] at hx
      simp at hx

theorem timeLoop_pairwise (stop step : ℚ) (hs : 0 < step) :
    ∀ (fuel : ℕ) (t : ℚ), (timeLoop stop step fuel t).Pairwise (· < ·) := by
  intro fuel
  induction fuel with
  | zero => intro t; simp [timeLoop]
  | succ n ih =>
    intro t
    rw [timeLoop]
    by_cases ht : t ≤ stop
    · rw [if_pos ht]
      refine List.pairwise_cons.mpr ⟨?_, ih (t + step)⟩
      intro x hx
      have := (timeLoop_mem_bounds stop step (le_of_lt hs) n (t + step) x hx).1
      linarith
    · rw [if_neg ht]; simp

theorem timeLoop_length (stop step : ℚ) (hs : 0 < step) :
    ∀ (fuel : ℕ) (t : ℚ), (⌊(stop - t) / step⌋ + 1).toNat ≤ fuel →
      (timeLoop stop step fuel t).length = (⌊(stop - t) / step⌋ + 1).toNat := by
  intro fuel
  induction fuel with
  | zero => intro t h; simpa [timeLoop] using (Nat.le_zero.mp h).symm
  | succ n ih =>
    intro t hfuel
    rw [timeLoop]
    by_cases ht : t ≤ stop
    · rw [if_pos ht]
      have hnum : 0 ≤ (stop - t) / step := div_nonneg (by linarith) (le_of_lt hs)
      have hF : 0 ≤ ⌊(stop - t) / step⌋ := Int.floor_nonneg.mpr hnum
      have hshift : (stop - (t + step)) / step = (stop - t) / step - 1 := by
        field_simp
        ring
      have hfloor : ⌊(stop - (t + step)) / step⌋ = ⌊(stop - t) / step⌋ - 1 := by
        rw [hshift]
        exact_mod_cast Int.floor_sub_int ((stop - t) / step) 1
      have htn : (⌊(stop - t) / step⌋ + 1).toNat = ⌊(stop - t) / step⌋.toNat + 1 :=
        Int.toNat_add hF (by norm_num)
      have hle : (⌊(stop - (t + step)) / step⌋ + 1).toNat ≤ n := by
        rw [hfloor]
        simp only [sub_add_cancel]
        omega
      have := ih (t + step) hle
      rw [List.length_cons, this, hfloor]
      simp only [sub_add_cancel]
      omega
    · rw [if_neg ht]
      have hneg : (stop - t) / step < 0 :=
        div_neg_of_neg_of_pos (by linarith [not_le.mp ht]) hs
      have : ⌊(stop - t) / step⌋ < 0 := by
        rw [Int.floor_lt]
        exact_mod_cast hneg
      simp [Int.toNat_eq_zero.mpr (by omega : ⌊(stop - t) / step⌋ + 1 ≤ 0)]

theorem gridTimes_mem_bounds (start stop step : ℚ) (hs : 0 ≤ step) (x : ℚ)
    (hx : x ∈ gridTimes start stop step) : start ≤ x ∧ x ≤ stop :=
  timeLoop_mem_bounds stop step hs _ start x hx

theorem gridTimes_pairwise (start stop step : ℚ) (hs : 0 < step) :
    (gridTimes start stop step).Pairwise (· < ·) :=
  timeLoop_pairwise stop step hs _ start

theorem gridTimes_length (start stop step : ℚ) (hs : 0 < step) :
    (gridTimes start stop step).length = (⌊(stop - start) / step⌋ + 1).toNat := by
  exact timeLoop_length stop step hs _ start (Nat.le_succ _)

theorem scanTimes_mem_bounds (duration window step t : ℚ) (hs : 0 ≤ step) (x : ℚ)
    (hx : x ∈ scanTimes duration window step t) :
    max 0 (t - window) ≤ x ∧ x ≤ min duration (t + window) + searchEps :=
  gridTimes_mem_bounds _ _ _ hs x hx

theorem scanTimes_pairwise (duration window step t : ℚ) (hs : 0 < step) :
    (scanTimes duration window step t).Pairwise (· < ·) :=
  gridTimes_pairwise _ _ _ hs

theorem length_mapWithIdxFrom (f : ℕ → α → β) :
    ∀ (s : ℕ) (l : List α), (mapWithIdxFrom f s l).length = l.length := by
  intro s l
  induction l generalizing s with
  | nil => rfl
  | cons x xs ih => simp [mapWithIdxFrom, ih]

theorem mapWithIdxFrom_apply_mem (f : ℕ → α → β) :
    ∀ (l : List α) (s j : ℕ) (h : j < l.length),
      f (s + j) (l.get ⟨j, h⟩) ∈ mapWithIdxFrom f s l := by
  intro l
  induction l with
  | nil => intro s j h; exact absurd h (by simp)
  | cons x xs ih =>
    intro s j h
    cases j with
    | zero => exact List.mem_cons_self _ _
    | succ j =>
      have hj : j < xs.length := Nat.lt_of_succ_lt_succ h
      have := ih (s + 1) j hj
      have harith : s + (j + 1) = s + 1 + j := by omega
      rw [harith]
      exact List.mem_cons_of_mem _ this

theorem mem_mapWithIdxFrom (f : ℕ → α → β) :
    ∀ (l : List α) (s : ℕ) (b : β), b ∈ mapWithIdxFrom f s l →
      ∃ i, ∃ a ∈ l, b = f i a := by
  intro l
  induction l with
  | nil => intro s b hb; simp [mapWithIdxFrom] at hb
  | cons x xs ih =>
    intro s b hb
    rcases List.mem_cons.mp hb with hb | hb
    · exact ⟨s, x, List.mem_cons_self _ _, hb⟩
    · obtain ⟨i, a, ha, rfl⟩ := ih (s + 1) b hb
      exact ⟨i, a, List.mem_cons_of_mem _ ha, rfl⟩

theorem all_filter_self (p : α → Bool) (l : List α) : (l.filter p).all p = true := by
  induction l with
  | nil => rfl
  | cons x xs ih =>
    by_cases h : p x <;> simp [List.filter_cons, h, ih]

theorem scanWithCancel_false (read : ℚ → Option ℚ) (l : List ℚ) :
    ∀ (i : ℕ) (st : ℚ × ℚ × Bool),
      scanWithCancel read (fun _ => false) l i st = windowScan read st l := by
  induction l with
  | nil => intro i st; rfl
  | cons x rest ih =>
    intro i st
    show scanWithCancel read (fun _ => false) rest (i + 1) (scanStep read st x) =
      windowScan read st (x :: rest)
    rw [ih (i + 1) (scanStep read st x)]
    rfl

theorem scanWithCancel_threshold (read : ℚ → Option ℚ) (k : ℕ) (l : List ℚ) :
    ∀ (i : ℕ) (st : ℚ × ℚ × Bool),
      scanWithCancel read (fun j => decide (k ≤ j)) l i st =
        windowScan read st (l.take (k - i)) := by
  induction l with
  | nil => intro i st; simp [scanWithCancel, windowScan]
  | cons x rest ih =>
    intro i st
    by_cases hk : k ≤ i
    · have h0 : k - i = 0 := Nat.sub_eq_zero_of_le hk
      simp [scanWithCancel, hk, h0, windowScan]
    · have h1 : k - i = (k - (i + 1)) + 1 := by omega
      simp only [scanWithCancel, decide_eq_true_eq, if_neg hk, h1, List.take_succ_cons]
      rw [ih (i + 1) (scanStep read st x)]
      rfl

theorem scanWithCancel_eq_take (read : ℚ → Option ℚ) (cancel : ℕ → Bool) (l : List ℚ) :
    ∀ (i : ℕ) (st : ℚ × ℚ × Bool),
      ∃ n, scanWithCancel read cancel l i st = windowScan read st (l.take n) := by
  induction l with
  | nil => intro i st; exact ⟨0, rfl⟩
  | cons x rest ih =>
    intro i st
    by_cases hc : cancel i = true
    · refine ⟨0, ?_⟩
      simp [scanWithCancel, hc, windowScan]
    · obtain ⟨n, hn⟩ := ih (i + 1) (scanStep read st x)
      refine ⟨n + 1, ?_⟩
      simp only [scanWithCancel, if_neg hc, List.take_succ_cons]
      rw [hn]
      rfl

theorem windowScan_time_cases (read : ℚ → Option ℚ) (l : List ℚ) :
    ∀ st : ℚ × ℚ × Bool,
      (windowScan read st l).2.1 = st.2.1 ∨ (windowScan read st l).2.1 ∈ l := by
  induction l with
  | nil => intro st; exact Or.inl rfl
  | cons x rest ih =>
    intro st
    have hfold : windowScan read st (x :: rest) = windowScan read (scanStep read st x) rest := rfl
    have hcases : (scanStep read st x).2.1 = st.2.1 ∨ (scanStep read st x).2.1 = x := by
      cases hrx : read x with
      | none => simp [scanStep, hrx]
      | some v =>
        by_cases hv : st.1 < v
        · simp [scanStep, hrx, hv]
        · simp [scanStep, hrx, hv]
    rw [hfold]
    rcases ih (scanStep read st x) with h | h
    · rcases hcases with h2 | h2
      · exact Or.inl (h.trans h2)
      · exact Or.inr (by rw [h, h2]; exact List.mem_cons_self _ _)
    · exact Or.inr (List.mem_cons_of_mem _ h)

theorem windowScan_found_mem (read : ℚ → Option ℚ) (l : List ℚ) :
    ∀ st : ℚ × ℚ × Bool, st.2.2 = false → (windowScan read st l).2.2 = true →
      (windowScan read st l).2.1 ∈ l := by
  induction l with
  | nil =>
    intro st h0 h1
    rw [show windowScan read st [] = st from rfl] at h1
    rw [h0] at h1
    cases h1
  | cons x rest ih =>
    intro st h0 h1
    have hfold : windowScan read st (x :: rest) = windowScan read (scanStep read st x) rest := rfl
    rw [hfold] at h1 ⊢
    by_cases hs : (scanStep read st x).2.2 = true
    · have hupd : (scanStep read st x).2.1 = x := by
        cases hrx : read x with
        | none =>
          exfalso
          rw [show scanStep read st x = st by simp [scanStep, hrx]] at hs
          rw [h0] at hs
          cases hs
        | some v =>
          by_cases hv : st.1 < v
          · simp [scanStep, hrx, hv]
          · exfalso
            rw [show scanStep read st x = st by simp [scanStep, hrx, hv]] at hs
            rw [h0] at hs
            cases hs
      rcases windowScan_time_cases read rest (scanStep read st x) with h | h
      · rw [h, hupd]; exact List.mem_cons_self _ _
      · exact List.mem_cons_of_mem _ h
    · have := ih (scanStep read st x) (Bool.eq_false_iff.mpr hs) h1
      exact List.mem_cons_of_mem _ this

/-- Invariant carried by the inner-scan fold over the already-processed
positions `done`: a found state holds the score of its best time, its best
time was processed, no processed score exceeds the best score, and every
processed score at a strictly earlier time is strictly below it. -/
def ScanInv (read : ℚ → Option ℚ) (done : List ℚ) (st : ℚ × ℚ × Bool) : Prop :=
  (st.2.2 = true → read st.2.1 = some st.1 ∧ st.2.1 ∈ done) ∧
  (∀ u ∈ done, ∀ v, read u = some v → v ≤ st.1) ∧
  (st.2.2 = true → ∀ u ∈ done, u < st.2.1 → ∀ v, read u = some v → v < st.1)

theorem windowScan_inv (read : ℚ → Option ℚ) (l : List ℚ) :
    ∀ (done : List ℚ) (st : ℚ × ℚ × Bool),
      (∀ a ∈ done, ∀ b ∈ l, a < b) → l.Pairwise (· < ·) →
      ScanInv read done st → ScanInv read (done ++ l) (windowScan read st l) := by
  induction l with
  | nil => intro done st _ _ h; simpa [windowScan] using h
  | cons x rest ih =>
    intro done st hord hpw h
    have hx_rest : ∀ b ∈ rest, x < b := (List.pairwise_cons.mp hpw).1
    have hpw' : rest.Pairwise (· < ·) := (List.pairwise_cons.mp hpw).2
    have hord' : ∀ a ∈ done ++ [x], ∀ b ∈ rest, a < b := by
      intro a ha b hb
      rcases List.mem_append.mp ha with ha | ha
      · exact hord a ha b (List.mem_cons_of_mem x hb)
      · rw [List.mem_singleton.mp ha]
        exact hx_rest b hb
    have hstep : ScanInv read (done ++ [x]) (scanStep read st x) := by
      obtain ⟨h1, h2, h3⟩ := h
      cases hrx : read x with
      | none =>
        rw [show scanStep read st x = st by simp [scanStep, hrx]]
        refine ⟨?_, ?_, ?_⟩
        · intro hf
          obtain ⟨ha, hb⟩ := h1 hf
          exact ⟨ha, List.mem_append_left _ hb⟩
        · intro u hu v hv
          rcases List.mem_append.mp hu with hu | hu
          · exact h2 u hu v hv
          · rw [List.mem_singleton.mp hu, hrx] at hv
            cases hv
        · intro hf u hu hlt v hv
          rcases List.mem_append.mp hu with hu | hu
          · exact h3 hf u hu hlt v hv
          · rw [List.mem_singleton.mp hu, hrx] at hv
            cases hv
      | some v =>
        by_cases hc : st.1 < v
        · rw [show scanStep read st x = (v, x, true) by simp [scanStep, hrx, hc]]
          refine ⟨?_, ?_, ?_⟩
          · intro _
            exact ⟨hrx, List.mem_append_right _ (List.mem_singleton_self x)⟩
          · intro u hu w hw
            rcases List.mem_append.mp hu with hu | hu
            · exact le_of_lt (lt_of_le_of_lt (h2 u hu w hw) hc)
            · rw [List.mem_singleton.mp hu, hrx] at hw
              injection hw with hw
              exact le_of_eq hw.symm
          · intro _ u hu hlt w hw
            rcases List.mem_append.mp hu with hu | hu
            · exact lt_of_le_of_lt (h2 u hu w hw) hc
            · rw [List.mem_singleton.mp hu] at hlt
              exact absurd hlt (lt_irrefl x)
        · rw [show scanStep read st x = st by simp [scanStep, hrx, hc]]
          refine ⟨?_, ?_, ?_⟩
          · intro hf
            obtain ⟨ha, hb⟩ := h1 hf
            exact ⟨ha, List.mem_append_left _ hb⟩
          · intro u hu w hw
            rcases List.mem_append.mp hu with hu | hu
            · exact h2 u hu w hw
            · rw [List.mem_singleton.mp hu, hrx] at hw
              injection hw with hw
              rw [← hw]
              exact not_lt.mp hc
          · intro hf u hu hlt w hw
            rcases List.mem_append.mp hu with hu | hu
            · exact h3 hf u hu hlt w hw
            · exfalso
              obtain ⟨_, hbt⟩ := h1 hf
              rw [List.mem_singleton.mp hu] at hlt
              exact absurd (lt_trans (hord st.2.1 hbt x (List.mem_cons_self x rest)) hlt)
                (lt_irrefl st.2.1)
    have key := ih (done ++ [x]) (scanStep read st x) hord' hpw' hstep
    have happ : (done ++ [x]) ++ rest = done ++ x :: rest := by
      rw [List.append_assoc]
      rfl
    rw [happ] at key
    exact key

theorem toExport_foldl (l : List FrameData) :
    ∀ acc : List (ℕ × FrameData),
      l.foldl (fun acc f => if f.selected then acc ++ [(acc.length, f)] else acc) acc =
        acc ++ mapWithIdxFrom (fun i f => (i, f)) acc.length
          (l.filter (fun f => f.selected)) := by
  induction l with
  | nil => intro acc; simp [mapWithIdxFrom]
  | cons x xs ih =>
    intro acc
    by_cases hx : x.selected
    · rw [List.foldl_cons, if_pos hx, ih (acc ++ [(acc.length, x)]),
        List.filter_cons_of_pos (by simpa using hx)]
      simp [mapWithIdxFrom, List.append_assoc]
    · rw [List.foldl_cons, if_neg hx, ih acc,
        List.filter_cons_of_neg (by simpa using hx)]

theorem map_fst_mapWithIdxFrom (l : List FrameData) :
    ∀ s : ℕ, (mapWithIdxFrom (fun i f => (i, f)) s l).map Prod.fst =
      List.range' s l.length := by
  induction l with
  | nil => intro s; rfl
  | cons x xs ih =>
    intro s
    simp only [mapWithIdxFrom, List.map_cons, List.length_cons]
    rw [ih (s + 1)]
    rfl

theorem targetResult_time_bounds (read : ℚ → Option ℚ) (cancel : ℕ → Bool)
    (duration window step t : ℚ) (hstep : 0 < step) (r : FrameData)
    (hr : targetResult read cancel duration window step t = some r) :
    max 0 (t - window) ≤ r.time ∧ r.time ≤ min duration (t + window) + searchEps := by
  unfold targetResult targetResultOn at hr
  obtain ⟨n, hn⟩ :=
    scanWithCancel_eq_take read cancel (scanTimes duration window step t) 0 (-1, t, false)
  rw [hn] at hr
  by_cases hfound :
      (windowScan read (-1, t, false) ((scanTimes duration window step t).take n)).2.2 = true
  · rw [if_pos hfound] at hr
    have hmem := windowScan_found_mem read _ (-1, t, false) rfl hfound
    have hmem' := List.take_subset n (scanTimes duration window step t) hmem
    have hb := scanTimes_mem_bounds duration window step t (le_of_lt hstep) _ hmem'
    rw [← Option.some_inj.mp hr]
    exact hb
  · rw [if_neg hfound] at hr
    cases hr

/-- C1: in findOptimalFrames, an emitted per-target selection carries the
score actually read at its time, its time is one of the scanned positions,
no scanned position scores strictly higher, and every scanned position at an
earlier time scores strictly lower: the strict greater-than update retains
the maximum-scoring position and, among tied maxima, the earliest-scanned
one, which is the smallest time since the scan proceeds by increasing time.
The spec's example window [1.5, 2.5] with scores 12.0 at 1.6, 12.0 at 2.0 and
9.0 at 2.4 — where the chosen time is 1.6 — is the witness. -/
theorem c1_earliest_max (read : ℚ → Option ℚ) (duration window step t : ℚ)
    (hstep : 0 < step) (r : FrameData)
    (hr : targetResult read (fun _ => false) duration window step t = some r) :
    read r.time = some r.sharpness ∧
    r.time ∈ scanTimes duration window step t ∧
    (∀ u ∈ scanTimes duration window step t, ∀ v, read u = some v → v ≤ r.sharpness) ∧
    (∀ u ∈ scanTimes duration window step t, u < r.time → ∀ v, read u = some v →
      v < r.sharpness) := by
  unfold targetResult targetResultOn at hr
  rw [scanWithCancel_false read _ 0 (-1, t, false)] at hr
  by_cases hfound :
      (windowScan read (-1, t, false) (scanTimes duration window step t)).2.2 = true
  · rw [if_pos hfound] at hr
    have h0 : ScanInv read [] ((-1 : ℚ), t, false) := ⟨by simp, by simp, by simp⟩
    have hinv := windowScan_inv read (scanTimes duration window step t) [] (-1, t, false)
      (by simp) (scanTimes_pairwise duration window step t hstep) h0
    rw [List.nil_append] at hinv
    obtain ⟨h1, h2, h3⟩ := hinv
    obtain ⟨hread, hmem⟩ := h1 hfound
    rw [← Option.some_inj.mp hr]
    exact ⟨hread, hmem, h2, h3 hfound⟩
  · rw [if_neg hfound] at hr
    cases hr

/-- C1 witness: the spec's example. In the window [1.5, 2.5] scanned at step
0.1, `exampleRead` scores 12.0 at 1.6, 12.0 at 2.0 and 9.0 at 2.4 (all other
reads fail), and the chosen frame is (time 1.6 = 8/5, sharpness 12): the
earliest of the tied maxima. -/
theorem c1_earliest_max_witness :
    0 < (1 / 10 : ℚ) ∧
    targetResult exampleRead (fun _ => false) 10 (1 / 2) (1 / 10) 2 =
      some ⟨8 / 5, 12, true⟩ ∧
    (exampleRead (⟨8 / 5, 12, true⟩ : FrameData).time =
        some (⟨8 / 5, 12, true⟩ : FrameData).sharpness ∧
      (⟨8 / 5, 12, true⟩ : FrameData).time ∈ scanTimes 10 (1 / 2) (1 / 10) 2 ∧
      (∀ u ∈ scanTimes 10 (1 / 2) (1 / 10) 2, ∀ v, exampleRead u = some v →
        v ≤ (⟨8 / 5, 12, true⟩ : FrameData).sharpness) ∧
      (∀ u ∈ scanTimes 10 (1 / 2) (1 / 10) 2, u < (⟨8 / 5, 12, true⟩ : FrameData).time →
        ∀ v, exampleRead u = some v → v < (⟨8 / 5, 12, true⟩ : FrameData).sharpness)) :=
  ⟨by decide, by decide,
    c1_earliest_max exampleRead 10 (1 / 2) (1 / 10) 2 (by decide) ⟨8 / 5, 12, true⟩
      (by decide)⟩

/-- C2 counterexample: with search window 0.01 - 5e-10 and step 0.01, the
inner scan bound endT + 1e-9 admits the position 0.01, which lies strictly
beyond the clamped window of every target of the run, and the best frame is
found there, so the emitted selection time 0.01 is inside no target's
inclusive window [max(0, t-window), min(D, t+window)]. -/
theorem c2_counterexample :
    (findOptimalFrames cexRead (fun _ => false) (fun _ _ => false) false true
        10 10 cexWindow (1 / 100)).1 = [⟨1 / 100, 2, true⟩] ∧
    ¬ ∃ t ∈ targetTimes 10 10,
        max 0 (t - cexWindow) ≤ (1 : ℚ) / 100 ∧ (1 : ℚ) / 100 ≤ min 10 (t + cexWindow) := by
  decide

/-- C2 (amended): every selection emitted by a findOptimalFrames run lies in
the clamped window of some target of the run, widened at the top by the
scan's 1e-9 slack: max(0, t-window) <= time <= min(D, t+window) + 1e-9. -/
theorem c2_window_bounds (read : ℚ → Option ℚ) (skip : ℕ → Bool)
    (innerCancel : ℕ → ℕ → Bool) (finalCancelled capOpen : Bool)
    (duration interval window step : ℚ) (hstep : 0 < step) (r : FrameData)
    (hr : r ∈ (findOptimalFrames read skip innerCancel finalCancelled capOpen
      duration interval window step).1) :
    ∃ t ∈ targetTimes duration interval,
      max 0 (t - window) ≤ r.time ∧ r.time ≤ min duration (t + window) + searchEps := by
  cases capOpen with
  | false => simp [findOptimalFrames] at hr
  | true =>
    by_cases hd : duration ≤ 0
    · simp [findOptimalFrames, hd] at hr
    · have hout : (findOptimalFrames read skip innerCancel finalCancelled true
          duration interval window step).1 =
          (mapWithIdx (targetSlot read skip innerCancel duration window step)
            (targetTimes duration interval)).filterMap id := by
        simp [findOptimalFrames, hd]
      rw [hout] at hr
      obtain ⟨o, ho, hido⟩ := List.mem_filterMap.mp hr
      obtain rfl : o = some r := hido
      obtain ⟨i, t, ht, heq⟩ := mem_mapWithIdxFrom _ _ 0 _ ho
      unfold targetSlot at heq
      by_cases hsk : skip i = true
      · rw [if_pos hsk] at heq
        cases heq
      · rw [if_neg hsk] at heq
        exact ⟨t, ht, targetResult_time_bounds read (innerCancel i) duration window step t
          hstep r heq.symm⟩

/-- C2 witness: a run over a one-second video with interval 1, window 0.1 and
step 0.1, every read succeeding with score 1, emits the selection at time 0,
which lies within the slack-widened window of target 0. -/
theorem c2_window_bounds_witness :
    0 < (1 / 10 : ℚ) ∧
    (⟨0, 1, true⟩ : FrameData) ∈ (findOptimalFrames (fun _ => some 1) (fun _ => false)
      (fun _ _ => false) false true 1 1 (1 / 10) (1 / 10)).1 ∧
    ∃ t ∈ targetTimes 1 1,
      max 0 (t - 1 / 10) ≤ (⟨0, 1, true⟩ : FrameData).time ∧
      (⟨0, 1, true⟩ : FrameData).time ≤ min 1 (t + 1 / 10) + searchEps :=
  ⟨by decide, by decide,
    c2_window_bounds (fun _ => some 1) (fun _ => false) (fun _ _ => false) false true
      1 1 (1 / 10) (1 / 10) (by decide) ⟨0, 1, true⟩ (by decide)⟩

/-- C3 counterexample: the inner scan's loop condition polls the cancel flag
per scan step (part_000 line 250). With the flag observed set from inner
iteration 1 on, the scan of the window [1.5, 2.5] stops after scoring only
position 1.5 (score 5) and emits (1.5, 5), while the uncancelled scan of the
same target emits (2.0, 10): the inner scan does not run to completion, and a
partially-scored target is emitted. -/
theorem c3_counterexample :
    targetResult readC3 (fun i => decide (1 ≤ i)) 10 (1 / 2) (1 / 10) 2 =
      some ⟨3 / 2, 5, true⟩ ∧
    targetResult readC3 (fun _ => false) 10 (1 / 2) (1 / 10) 2 =
      some ⟨2, 10, true⟩ ∧
    (⟨3 / 2, 5, true⟩ : FrameData) ≠ ⟨2, 10, true⟩ := by decide

/-- C3 (amended): cancellation is honored per inner-scan step, not per
target: if the cancel flag is first observed at inner iteration k, the
window scan stops there and the target's slot is computed from only the first
k scan positions — in particular a target whose scan was interrupted
mid-window can still emit a partially-scored selection (whenever one of those
k positions yielded a readable frame). -/
theorem c3_step_cancel (read : ℚ → Option ℚ) (k : ℕ) (duration window step t : ℚ) :
    targetResult read (fun i => decide (k ≤ i)) duration window step t =
      targetResultOn read (fun _ => false) ((scanTimes duration window step t).take k) t := by
  unfold targetResult targetResultOn
  rw [scanWithCancel_threshold read k _ 0 (-1, t, false),
    scanWithCancel_false read _ 0 (-1, t, false), Nat.sub_zero]

/-- C4: the sample grid t = 0, s, 2s, ... while t <= D of an analyzeFullVideo
run with duration D > 0 and step s > 0 has exactly floor(D/s) + 1 attempted
points (in the exact rational model of the double arithmetic). -/
theorem c4_sample_count (duration step : ℚ) (hd : 0 < duration) (hs : 0 < step) :
    (sampleTimes duration step).length = ⌊duration / step⌋.toNat + 1 := by
  unfold sampleTimes
  rw [gridTimes_length 0 duration step hs, sub_zero]
  have hF : 0 ≤ ⌊duration / step⌋ :=
    Int.floor_nonneg.mpr (div_nonneg (le_of_lt hd) (le_of_lt hs))
  omega

/-- C4 witness: duration 10 with step 2 attempts exactly the six sample times
0, 2, 4, 6, 8, 10, and 6 = floor(10/2) + 1. -/
theorem c4_sample_count_witness :
    0 < (10 : ℚ) ∧ 0 < (2 : ℚ) ∧ sampleTimes 10 2 = [0, 2, 4, 6, 8, 10] ∧
    (sampleTimes 10 2).length = ⌊(10 : ℚ) / 2⌋.toNat + 1 :=
  ⟨by decide, by decide, by decide, c4_sample_count 10 2 (by decide) (by decide)⟩

/-- C5: evaluation of analyzeFullVideo at the failing input — a one-second
video sampled at step 1 (grid {0, 1}) whose run observes cancellation at
every unit. A skipped unit leaves its pre-sized slot default-constructed with
sharpness 0.0 (part_000 lines 156, 166), which passes the `sharpness >= 0`
collection filter (line 191), so the cancelled run emits two spurious
(time 0, sharpness 0) entries — not the zero results the claim states —
while returning the cancelled outcome. Only read failures are marked with
the invalid sentinel -1 (line 176); cancel-skips are not. -/
theorem c5_cancelled_run_emits_defaults :
    (analyzeFullVideo (fun _ => some 1) (fun _ => true) true true 1 1).1 =
      [defaultFrameData, defaultFrameData] ∧
    (analyzeFullVideo (fun _ => some 1) (fun _ => true) true true 1 1).2 = false ∧
    ([defaultFrameData, defaultFrameData] : List FrameData) ≠ [] := by decide

/-- C6 counterexample: a selection set whose single entry has selected =
false round-trips to the empty list — saveConfig persists only entries with
selected == true (app.cpp line 580) — so the (time, sharpness) pair of an
unselected entry is not preserved, contradicting "regardless of what the
entry's selected flag was before saving". -/
theorem c6_counterexample :
    loadSelectedFrames (savedSelectedFrames [⟨1, 2, false⟩]) = [] ∧
    ¬ ∃ g ∈ loadSelectedFrames (savedSelectedFrames [⟨1, 2, false⟩]),
        g.time = 1 ∧ g.sharpness = 2 := by decide

/-- C6 (amended): saving then reloading a selection set preserves the
(time, sharpness) pair of every entry whose selected flag was true — entries
with selected == false are dropped by saveConfig — and every loaded entry has
selected == true. -/
theorem c6_roundtrip_selected (frames : List FrameData) :
    loadSelectedFrames (savedSelectedFrames frames) =
      (frames.filter (fun f => f.selected)).map (fun f => ⟨f.time, f.sharpness, true⟩) ∧
    (loadSelectedFrames (savedSelectedFrames frames)).all (fun g => g.selected) = true := by
  constructor
  · simp [loadSelectedFrames, savedSelectedFrames, List.map_map, Function.comp]
  · simp [loadSelectedFrames, savedSelectedFrames, List.all_eq_true]

/-- C7: every sample in the collection returned by analyzeFullVideo has
sharpness >= 0: the collection pass keeps exactly the slots passing the
`sharpness >= 0.0` filter, so the negative invalid-sample sentinel never
appears in the output, whatever the read oracle, cancellation schedule and
parameters. -/
theorem c7_emitted_nonneg (read : ℚ → Option ℚ) (skip : ℕ → Bool)
    (finalCancelled capOpen : Bool) (duration step : ℚ) :
    ((analyzeFullVideo read skip finalCancelled capOpen duration step).1).all
      (fun r => 0 ≤ r.sharpness) = true := by
  unfold analyzeFullVideo
  split
  · rfl
  · split
    · rfl
    · exact all_filter_self _ _

/-- C8: the duration openVideo computes is frameCount / fps when fps > 0 and
frameCount > 0, and 0 for every other combination. -/
theorem c8_duration_rule (fps : ℚ) (frameCount width height : ℤ) :
    ((0 < fps ∧ 0 < frameCount) →
      (openVideoInfo fps frameCount width height).duration = (frameCount : ℚ) / fps) ∧
    (¬(0 < fps ∧ 0 < frameCount) →
      (openVideoInfo fps frameCount width height).duration = 0) := by
  constructor
  · intro h
    simp [openVideoInfo, h]
  · intro h
    simp [openVideoInfo, h]

/-- C9: if any processed export unit's write fails, exportFrames returns
failure; and every sibling unit that is processed (not skipped) still runs to
completion — its outcome depends only on its own read and write, so its file
appears in the output despite the failure elsewhere. -/
theorem c9_write_failure (read : ℚ → Option ℚ) (writeOk skip : ℕ → Bool)
    (finalCancelled : Bool) (frames : List FrameData) (j : ℕ)
    (hj : j < (toExport frames).length) (hskip : skip j = false)
    (hread : (read ((toExport frames).get ⟨j, hj⟩).2.time).isSome = true)
    (hw : writeOk j = false) :
    (exportFrames read writeOk skip finalCancelled true frames).2 = false ∧
    ∀ (i : ℕ) (hi : i < (toExport frames).length), i ≠ j → skip i = false →
      writeOk i = true → ∀ v, read ((toExport frames).get ⟨i, hi⟩).2.time = some v →
      (⟨((toExport frames).get ⟨i, hi⟩).1, ((toExport frames).get ⟨i, hi⟩).2.time,
        ((toExport frames).get ⟨i, hi⟩).2.sharpness⟩ : ExportedFile) ∈
        (exportFrames read writeOk skip finalCancelled true frames).1 := by
  have hany : (exportOutcomes read writeOk skip frames).any Prod.snd = true := by
    rw [List.any_eq_true]
    obtain ⟨v, hv⟩ := Option.isSome_iff_exists.mp hread
    refine ⟨(none, true), ?_, rfl⟩
    have hmem := mapWithIdxFrom_apply_mem (exportUnit read writeOk skip)
      (toExport frames) 0 j hj
    rw [Nat.zero_add] at hmem
    rw [show exportUnit read writeOk skip j ((toExport frames).get ⟨j, hj⟩) =
        ((none : Option ExportedFile), true) by
      simp [exportUnit, hskip, hw]
      rw [show read (toExport frames)[j].2.time = some v from hv]] at hmem
    exact hmem
  constructor
  · simp [exportFrames, hany]
  · intro i hi hne hsk hwk v hv
    have hmem := mapWithIdxFrom_apply_mem (exportUnit read writeOk skip)
      (toExport frames) 0 i hi
    rw [Nat.zero_add] at hmem
    rw [show exportUnit read writeOk skip i ((toExport frames).get ⟨i, hi⟩) =
        (some ⟨((toExport frames).get ⟨i, hi⟩).1, ((toExport frames).get ⟨i, hi⟩).2.time,
          ((toExport frames).get ⟨i, hi⟩).2.sharpness⟩, false) by
      simp [exportUnit, hsk, hwk]
      rw [show read (toExport frames)[i].2.time = some v from hv]] at hmem
    exact List.mem_filterMap.mpr
      ⟨some ⟨((toExport frames).get ⟨i, hi⟩).1, ((toExport frames).get ⟨i, hi⟩).2.time,
          ((toExport frames).get ⟨i, hi⟩).2.sharpness⟩,
        List.mem_map.mpr ⟨_, hmem, rfl⟩, rfl⟩

/-- C9 witness: two selected frames; unit 0's write fails, unit 1's
succeeds. The export returns failure, and unit 1's file (index 1, time 2,
score 7) is still written. -/
theorem c9_write_failure_witness :
    (exportFrames (fun _ => some 1) (fun i => decide (1 ≤ i)) (fun _ => false) false true
        [⟨1, 5, true⟩, ⟨2, 7, true⟩]).2 = false ∧
    (⟨1, 2, 7⟩ : ExportedFile) ∈
      (exportFrames (fun _ => some 1) (fun i => decide (1 ≤ i)) (fun _ => false) false true
        [⟨1, 5, true⟩, ⟨2, 7, true⟩]).1 := by
  have h := c9_write_failure (fun _ => some 1) (fun i => decide (1 ≤ i)) (fun _ => false)
    false [⟨1, 5, true⟩, ⟨2, 7, true⟩] 0 (by decide) (by decide) (by decide) (by decide)
  exact ⟨h.1, h.2 1 (by decide) (by decide) (by decide) (by decide) 1 (by decide)⟩

/-- C10: the ordinal index paired with each entry to be exported — the index
snprintf embeds in the output filename — numbers exactly the entries with
selected == true, consecutively from 0 in input order: unselected entries are
skipped without leaving gaps, and the index sequence is 0, 1, ..., n-1. -/
theorem c10_export_numbering (frames : List FrameData) :
    toExport frames = consecutiveIndexed frames ∧
    (toExport frames).map Prod.fst =
      List.range (frames.filter (fun f => f.selected)).length := by
  have h1 : toExport frames = consecutiveIndexed frames := by
    unfold toExport consecutiveIndexed mapWithIdx
    rw [toExport_foldl frames []]
    rfl
  refine ⟨h1, ?_⟩
  rw [h1]
  unfold consecutiveIndexed mapWithIdx
  rw [map_fst_mapWithIdxFrom _ 0, List.range_eq_range']

end Sharpctl
